import Mathlib

/-!
The go-starter database helpers and request-logging middleware.

A shallow embedding of `internal/sys/database/database.go` and
`internal/web/v1/mid/logger.go`, with the standard-library and driver calls
they rely on (`net/url`, `errors`, `database/sql`, `context`, `time`) modelled
next to them, followed by the properties established about them.

Go strings are byte sequences, so they are lists of `UInt8` here.
-/

namespace GoStarter

/-! ## Strings -/

/-- A Go `string`: an immutable sequence of bytes. -/
abbrev GoString := List UInt8

/-- The byte of an ASCII character literal. -/
def ch (c : Char) : UInt8 := UInt8.ofNat c.toNat

/-- The bytes of an ASCII string literal. -/
def str (s : String) : GoString := s.toList.map ch

/-! ## net/url -/

/-- The `encoding` modes of `net/url`. -/
inductive encoding where
  | encodePath
  | encodePathSegment
  | encodeHost
  | encodeZone
  | encodeUserPassword
  | encodeQueryComponent
  | encodeFragment
  deriving DecidableEq, Repr

open encoding

/-- Go's `url.shouldEscape`: whether byte `c` is percent-encoded in `mode`. -/
def shouldEscape (c : UInt8) (mode : encoding) : Bool :=
  -- §2.3 Unreserved characters (alphanum)
  if (ch 'a' ≤ c ∧ c ≤ ch 'z') ∨ (ch 'A' ≤ c ∧ c ≤ ch 'Z') ∨ (ch '0' ≤ c ∧ c ≤ ch '9') then
    false
  else if (mode = encodeHost ∨ mode = encodeZone) ∧
      c ∈ [ch '!', ch '$', ch '&', 39, ch '(', ch ')', ch '*', ch '+', ch ',', ch ';',
           ch '=', ch ':', ch '[', ch ']', ch '<', ch '>', 34] then
    false
  else if c ∈ [ch '-', ch '_', ch '.', ch '~'] then
    false
  else if c ∈ [ch '$', ch '&', ch '+', ch ',', ch '/', ch ':', ch ';', ch '=', ch '?', ch '@'] then
    match mode with
    | encodePath => c == ch '?'
    | encodePathSegment => c == ch '/' || c == ch ';' || c == ch ',' || c == ch '?'
    | encodeUserPassword => c == ch '@' || c == ch '/' || c == ch '?' || c == ch ':'
    | encodeQueryComponent => true
    | encodeFragment => false
    | _ => true
  else if mode = encodeFragment ∧ c ∈ [ch '!', ch '(', ch ')', ch '*'] then
    false
  else
    true

/-- The table `upperhex` of `net/url`. -/
def upperhex : GoString := str "0123456789ABCDEF"

/-- What `url.escape` writes for one byte. -/
def escapeByte (mode : encoding) (c : UInt8) : GoString :=
  if c = ch ' ' ∧ mode = encodeQueryComponent then
    [ch '+']
  else if shouldEscape c mode then
    [ch '%', upperhex.getD (c >>> 4).toNat 0, upperhex.getD (c &&& 15).toNat 0]
  else
    [c]

/-- Go's `url.escape`: the string with every byte that `shouldEscape` selects
replaced by its `%XX` form (a space by `+` in a query component). -/
def escape (s : GoString) (mode : encoding) : GoString :=
  s.flatMap (escapeByte mode)

/-- Go's `url.QueryEscape`. -/
def QueryEscape (s : GoString) : GoString := escape s encodeQueryComponent

/-- Go's `url.Userinfo`. -/
structure Userinfo where
  username : GoString
  password : GoString
  passwordSet : Bool
  deriving DecidableEq, Repr

/-- Go's `url.UserPassword`. -/
def UserPassword (username password : GoString) : Userinfo :=
  { username := username, password := password, passwordSet := true }

/-- Go's `(*Userinfo).String`. -/
def Userinfo.String (u : Userinfo) : GoString :=
  let s := escape u.username encodeUserPassword
  if u.passwordSet then s ++ str ":" ++ escape u.password encodeUserPassword else s

/-- Go's `url.Values`, a `map[string][]string`. The entries are listed in
some order; the language leaves the order in which `range` visits a map
unspecified, and `Encode` below does not depend on it. -/
abbrev Values := List (GoString × List GoString)

/-- Go's `Values.Set`: `v[key] = []string{value}`. -/
def Values.Set (v : Values) (key value : GoString) : Values :=
  if v.any (fun e => e.1 == key) then
    v.map (fun e => if e.1 == key then (key, [value]) else e)
  else
    v ++ [(key, [value])]

/-- Byte-wise lexicographic `<` on strings, the order of `slices.Sort`. -/
def strLess : GoString → GoString → Bool
  | [], [] => false
  | [], _ :: _ => true
  | _ :: _, [] => false
  | a :: as, b :: bs => if a < b then true else if b < a then false else strLess as bs

/-- Insertion of a key into a sorted list of keys. -/
def insertKey (k : GoString) : List GoString → List GoString
  | [] => [k]
  | x :: xs => if strLess x k then x :: insertKey k xs else k :: x :: xs

/-- The keys in ascending order (`slices.Sort(keys)`). -/
def sortKeys : List GoString → List GoString
  | [] => []
  | k :: ks => insertKey k (sortKeys ks)

/-- The value list stored under `key` (`v[key]`). -/
def Values.lookup (v : Values) (key : GoString) : List GoString :=
  match v.find? (fun e => e.1 == key) with
  | some e => e.2
  | none => []

/-- The `key=value` pairs of `Values.Encode`, in output order. -/
def Values.pairs (v : Values) : List GoString :=
  (sortKeys (v.map Prod.fst)).flatMap
    (fun k => (v.lookup k).map (fun x => QueryEscape k ++ str "=" ++ QueryEscape x))

/-- Go's `Values.Encode`: the pairs sorted by key, joined with `&`. -/
def Values.Encode (v : Values) : GoString :=
  (str "&").intercalate v.pairs

/-- Go's `url.URL`, with the fields the program sets; `Opaque`, `RawPath`,
`OmitHost`, `ForceQuery`, `Fragment` and `RawFragment` keep their zero value. -/
structure URL where
  Scheme : GoString
  User : Option Userinfo
  Host : GoString
  Path : GoString
  RawQuery : GoString
  deriving DecidableEq, Repr

/-- Go's `(*URL).EscapedPath` for an empty `RawPath`. -/
def URL.EscapedPath (u : URL) : GoString :=
  if u.Path = str "*" then str "*" else escape u.Path encodePath

/-- The part of `path` before its first `/` (`strings.Cut(path, "/")`). -/
def firstSegment (path : GoString) : GoString :=
  path.takeWhile (fun c => c != ch '/')

/-- Go's `(*URL).String`, one buffer write after the other. -/
def URL.String (u : URL) : GoString :=
  let buf : GoString := []
  let buf := if u.Scheme ≠ [] then buf ++ u.Scheme ++ str ":" else buf
  let buf :=
    if u.Scheme ≠ [] ∨ u.Host ≠ [] ∨ u.User ≠ none then
      let buf := if u.Host ≠ [] ∨ u.Path ≠ [] ∨ u.User ≠ none then buf ++ str "//" else buf
      let buf :=
        match u.User with
        | some ui => buf ++ ui.String ++ str "@"
        | none => buf
      if u.Host ≠ [] then buf ++ escape u.Host encodeHost else buf
    else buf
  let path := u.EscapedPath
  let buf := if path ≠ [] ∧ path.head? ≠ some (ch '/') ∧ u.Host ≠ [] then buf ++ str "/" else buf
  let buf := if buf = [] ∧ ch ':' ∈ firstSegment path then buf ++ str "./" else buf
  let buf := buf ++ path
  if u.RawQuery ≠ [] then buf ++ str "?" ++ u.RawQuery else buf

/-! ## Machine integers -/

/-- The width of the type `int` in bits. The embedding is of the program as
built for a 64-bit platform. -/
def intSize : Nat := 64

/-- Two's-complement wraparound of `x` into the signed range of `bits` bits. -/
def wrapInt (bits : Nat) (x : Int) : Int :=
  (x + 2 ^ (bits - 1)) % 2 ^ bits - 2 ^ (bits - 1)

/-! ## Errors -/

/-- The fields of `pgconn.PgError` the program reads. -/
structure PgError where
  Code : GoString
  Message : GoString
  deriving DecidableEq, Repr

/-- The `Is` and `As` methods that the type of an error may have, for the
targets the program passes. A method is a function that returns. -/
structure Methods where
  /-- The method `Is(target error) bool`, for a target that is a
  `*errors.errorString`: from the target's address, what it returns. -/
  Is : Option (Nat → Bool)
  /-- The method `As(target any) bool`, for a target of type
  `**pgconn.PgError`: from the pointer the target holds, the pointer the method
  leaves there and what it returns. -/
  As : Option (Option PgError → Option PgError × Bool)

/-- Go error values, by dynamic type: the errors that `errors.New`,
`fmt.Errorf` and `errors.Join` build, whose types are unexported, have no `Is`
or `As` method and whose pointers are never nil; the exported
`*pgconn.PgError`, which has neither method and of which the nil pointer is a
value too; and errors of any other type. -/
inductive GoError where
  /-- A `*errors.errorString` (made by `errors.New`), identified by its address. -/
  | errorString (addr : Nat)
  /-- A `*pgconn.PgError`; `none` is the nil pointer of that type. -/
  | pgError (p : Option PgError)
  /-- An error with `Unwrap() error`, such as `fmt.Errorf` with one `%w` builds. -/
  | wrapError (err : GoError)
  /-- An error with `Unwrap() []error`, such as `errors.Join` builds. -/
  | joinError (errs : List GoError)
  /-- An error of another type: the `Is` and `As` methods it has, and the errors
  its `Unwrap` method gives (none, one or several). -/
  | userError (methods : Methods) (errs : List GoError)

/-- A value of interface type `error`: `none` is the nil interface. -/
abbrev error := Option GoError

/-! ## Package errors -/

/-- The errors that `errors.Is` and `errors.As` visit when none matches, in
the order they visit them: the error itself, then what its `Unwrap` method
gives, depth first. -/
def GoError.chain : GoError → List GoError
  | GoError.errorString a => [GoError.errorString a]
  | GoError.pgError p => [GoError.pgError p]
  | GoError.wrapError err => GoError.wrapError err :: err.chain
  | GoError.joinError errs => GoError.joinError errs :: chainList errs
  | GoError.userError methods errs => GoError.userError methods errs :: chainList errs
where
  /-- The chains of the errors of a list, one after the other. -/
  chainList : List GoError → List GoError
    | [] => []
    | e :: es => e.chain ++ chainList es

/-- The loop `is` of package `errors`, for a target that is the
`*errors.errorString` at address `target`: at each error the comparison
`err == target` (same dynamic type and same address), then the error's own
`Is` method, then its `Unwrap` method. -/
def errorsIsLoop (target : Nat) : GoError → Bool
  | GoError.errorString a => a == target
  | GoError.pgError _ => false
  | GoError.wrapError err => errorsIsLoop target err
  | GoError.joinError errs => anyIs target errs
  | GoError.userError methods errs =>
    match methods.Is with
    | some isMethod => if isMethod target then true else anyIs target errs
    | none => anyIs target errs
where
  /-- The `for _, err := range x.Unwrap()` of `is`. -/
  anyIs (target : Nat) : List GoError → Bool
    | [] => false
    | e :: es => if errorsIsLoop target e then true else anyIs target es

/-- Go's `errors.Is(err, target)` for a non-nil target that is the
`*errors.errorString` at address `target`. -/
def errorsIs (err : error) (target : Nat) : Bool :=
  match err with
  | none => false
  | some e => errorsIsLoop target e

/-- The loop `as` of package `errors` for a target of type `**pgconn.PgError`
that holds the pointer `pgErr`: the pointer the target holds afterwards and
what the loop returns. At each error: the assignment when the error is a
`*pgconn.PgError`, else the error's own `As` method, then its `Unwrap` method. -/
def errorsAsLoop : GoError → Option PgError → Option PgError × Bool
  | GoError.errorString _, pgErr => (pgErr, false)
  | GoError.pgError p, _ => (p, true)
  | GoError.wrapError err, pgErr => errorsAsLoop err pgErr
  | GoError.joinError errs, pgErr => firstAs errs pgErr
  | GoError.userError methods errs, pgErr =>
    match methods.As with
    | some asMethod =>
      if (asMethod pgErr).2 then ((asMethod pgErr).1, true)
      else firstAs errs (asMethod pgErr).1
    | none => firstAs errs pgErr
where
  /-- The `for _, err := range x.Unwrap()` of `as`. -/
  firstAs : List GoError → Option PgError → Option PgError × Bool
    | [], pgErr => (pgErr, false)
    | e :: es, pgErr =>
      if (errorsAsLoop e pgErr).2 then errorsAsLoop e pgErr
      else firstAs es (errorsAsLoop e pgErr).1

/-- Go's `errors.As(err, &pgErr)` with `var pgErr *pgconn.PgError`, which is
nil before the call: the value of `pgErr` afterwards and what `As` returns. -/
def errorsAs (err : error) : Option PgError × Bool :=
  match err with
  | none => (none, false)
  | some e => errorsAsLoop e none

/-! ## database.go: Config -/

/-- Config is the required properties to use the database. -/
structure Config where
  User : GoString
  Password : GoString
  Host : GoString
  Name : GoString
  DisableTLS : Bool
  deriving DecidableEq, Repr

/-- The local `sslMode` of `Config.String`. -/
def Config.sslMode (cfg : Config) : GoString :=
  if cfg.DisableTLS then str "disable" else str "require"

/-- The map `q` of `Config.String` after its two `Set` calls. -/
def Config.query (cfg : Config) : Values :=
  Values.Set (Values.Set [] (str "sslmode") cfg.sslMode) (str "timezone") (str "utc")

/-- The `url.URL` literal of `Config.String`, for a query map `q`. -/
def Config.url (cfg : Config) (q : Values) : URL :=
  { Scheme := str "postgres"
    User := some (UserPassword cfg.User cfg.Password)
    Host := cfg.Host
    Path := cfg.Name
    RawQuery := q.Encode }

/-- String returns a string representation of the database configuration. -/
def Config.String (cfg : Config) : GoString :=
  (cfg.url cfg.query).String

/-- The URI format as the specification writes it,
`postgres://<user>:<password>@<host>/<name>?sslmode=<disable|require>&timezone=utc`,
with the four strings inserted as given. -/
def uriTemplate (cfg : Config) : GoString :=
  str "postgres://" ++ cfg.User ++ str ":" ++ cfg.Password ++ str "@" ++ cfg.Host ++ str "/"
    ++ cfg.Name ++ str "?sslmode=" ++ cfg.sslMode ++ str "&timezone=utc"

/-- The query part of a URI: what follows its first `?`. -/
def queryPart (uri : GoString) : GoString :=
  (uri.dropWhile (fun c => c != ch '?')).tail

/-- The pieces of `s` between the occurrences of the byte `sep`. -/
def splitAt (sep : UInt8) : GoString → List GoString
  | [] => [[]]
  | c :: cs =>
    if c = sep then [] :: splitAt sep cs
    else
      match splitAt sep cs with
      | [] => [[c]]
      | p :: ps => (c :: p) :: ps

/-- The `key=value` parameters of a URI: its query part cut at every `&`. -/
def queryParams (uri : GoString) : List GoString :=
  splitAt (ch '&') (queryPart uri)

/-! ## database.go: Open -/

/-- The query execution modes of pgx; `QueryExecModeCacheStatement` is the
default. -/
inductive QueryExecMode where
  | QueryExecModeCacheStatement
  | QueryExecModeCacheDescribe
  | QueryExecModeDescribeExec
  | QueryExecModeExec
  | QueryExecModeSimpleProtocol
  deriving DecidableEq, Repr

/-- A `pgx.ConnConfig`: the connection string it was parsed from and the one
setting the program touches. -/
structure ConnConfig where
  connString : GoString
  DefaultQueryExecMode : QueryExecMode
  deriving DecidableEq, Repr

/-- The pool settings of a `sql.DB`, with the connector it was opened on. A
fresh handle has both settings at zero. -/
structure SqlDB where
  connector : ConnConfig
  /-- The field `maxOpen`; `0` means unlimited. -/
  maxOpen : Int
  /-- The field `maxIdleCount`; zero means the default of 2, negative means 0. -/
  maxIdleCount : Int
  deriving DecidableEq, Repr

/-- Go's `stdlib.OpenDB`: a handle on the configuration, no connection made. -/
def OpenDB (config : ConnConfig) : SqlDB :=
  { connector := config, maxOpen := 0, maxIdleCount := 0 }

/-- Go's `(*sql.DB).maxIdleConnsLocked`. -/
def SqlDB.maxIdleConnsLocked (db : SqlDB) : Int :=
  if db.maxIdleCount = 0 then 2
  else if db.maxIdleCount < 0 then 0
  else db.maxIdleCount

/-- Go's `(*sql.DB).SetMaxIdleConns`. -/
def SqlDB.SetMaxIdleConns (db : SqlDB) (n : Int) : SqlDB :=
  let db := if n > 0 then { db with maxIdleCount := n } else { db with maxIdleCount := -1 }
  if db.maxOpen > 0 ∧ db.maxIdleConnsLocked > db.maxOpen then
    { db with maxIdleCount := db.maxOpen }
  else db

/-- Go's `(*sql.DB).SetMaxOpenConns`. -/
def SqlDB.SetMaxOpenConns (db : SqlDB) (n : Int) : SqlDB :=
  let db := { db with maxOpen := if n < 0 then 0 else n }
  if db.maxOpen > 0 ∧ db.maxIdleConnsLocked > db.maxOpen then db.SetMaxIdleConns n else db

/-- A query hook of bun: the one of `bunotel`, with the database name it tags. -/
structure QueryHook where
  dbName : GoString
  deriving DecidableEq, Repr

/-- A `bun.DB`: the `sql.DB` it wraps and its query hooks. -/
structure BunDB where
  sqldb : SqlDB
  queryHooks : List QueryHook
  deriving DecidableEq, Repr

/-- Go's `bun.NewDB(sqldb, pgdialect.New())`. -/
def NewDB (sqldb : SqlDB) : BunDB :=
  { sqldb := sqldb, queryHooks := [] }

/-- Go's `(*bun.DB).AddQueryHook`. -/
def BunDB.AddQueryHook (db : BunDB) (hook : QueryHook) : BunDB :=
  { db with queryHooks := db.queryHooks ++ [hook] }

/-- The calls `Open` makes outside the package. -/
inductive OpenCall where
  | ParseConfig (connString : GoString)
  | OpenDB (config : ConnConfig)
  | GOMAXPROCS (n : Int)
  | SetMaxOpenConns (n : Int)
  | SetMaxIdleConns (n : Int)
  | NewDB
  | AddQueryHook (hook : QueryHook)
  deriving DecidableEq, Repr

/-- What `Open` returns, `(*bun.DB, error)`, and the calls it made. -/
structure OpenResult where
  db : Option BunDB
  err : error
  calls : List OpenCall

/-- Go's `runtime.GOMAXPROCS(0)`: `int(gomaxprocs)`, where `gomaxprocs` is
the scheduler's variable of type `int32`. -/
def GOMAXPROCS (gomaxprocs : Int) : Int :=
  wrapInt 32 gomaxprocs

/-- Open knows how to open a database connection based on the configuration.
`ParseConfig` stands for `pgx.ParseConfig` and `gomaxprocs` for the scheduler's
variable that `runtime.GOMAXPROCS(0)` reads. -/
def Open (ParseConfig : GoString → Except GoError ConnConfig) (gomaxprocs : Int)
    (cfg : Config) : OpenResult :=
  match ParseConfig cfg.String with
  | Except.error err =>
    { db := none, err := some err, calls := [OpenCall.ParseConfig cfg.String] }
  | Except.ok pgxConfig =>
    let pgxConfig :=
      { pgxConfig with DefaultQueryExecMode := QueryExecMode.QueryExecModeSimpleProtocol }
    let sqldb := OpenDB pgxConfig
    let maxOpenConns := wrapInt intSize (4 * GOMAXPROCS gomaxprocs)
    let sqldb := sqldb.SetMaxOpenConns maxOpenConns
    let sqldb := sqldb.SetMaxIdleConns maxOpenConns
    let db := NewDB sqldb
    let db := db.AddQueryHook { dbName := cfg.Name }
    { db := some db
      err := none
      calls := [OpenCall.ParseConfig cfg.String, OpenCall.OpenDB pgxConfig,
        OpenCall.GOMAXPROCS 0, OpenCall.SetMaxOpenConns maxOpenConns,
        OpenCall.SetMaxIdleConns maxOpenConns, OpenCall.NewDB,
        OpenCall.AddQueryHook { dbName := cfg.Name }] }

/-- A parser that accepts every connection string. -/
def acceptAll (connString : GoString) : Except GoError ConnConfig :=
  Except.ok { connString := connString,
              DefaultQueryExecMode := QueryExecMode.QueryExecModeCacheStatement }

/-- The example configuration of the specification. -/
def exampleConfig : Config :=
  ⟨str "u", str "p", str "db:5432", str "app", true⟩

/-! ## database.go: StatusCheck -/

/-- The argument of `time.Sleep`, in nanoseconds:
`time.Duration(attempts) * 1000 * time.Millisecond`, computed in `int64`. -/
def sleepArg (attempts : Int) : Int :=
  wrapInt 64 (wrapInt 64 (wrapInt 64 attempts * 1000) * 1000000)

/-- One second, `time.Second`, in nanoseconds. -/
def Second : Int := 1000000000

/-- What `StatusCheck` meets outside itself. Calls are numbered from 1 in the
order they are made. -/
structure World where
  /-- The result of the k-th call of `db.Ping()`. -/
  ping : Nat → error
  /-- The result of the i-th call of `ctx.Err()`; index 0 is the state of the
  context when `StatusCheck` is entered. -/
  ctxErr : Nat → error
  /-- The error of the row `db.QueryRowContext(ctx, q)` returns. -/
  queryRow : error
  /-- The error of scanning that row's single column into a `bool`. -/
  scan : error

/-- The contract of `context.Context`: once `Err` returns a non-nil error,
successive calls return the same error. -/
def World.ctxStable (w : World) : Prop :=
  ∀ i e, w.ctxErr i = some e → w.ctxErr (i + 1) = some e

/-- The calls `StatusCheck` makes. -/
inductive Event where
  | ping
  | sleep (d : Int)
  | ctxErr
  | queryRowContext (query : GoString)
  | scan
  deriving DecidableEq, Repr

/-- The state of the loop of `StatusCheck`. -/
structure LoopState where
  /-- The loop variable `attempts`, of type `int`. -/
  attempts : Int
  /-- How many times `db.Ping()` was called. -/
  pings : Nat
  /-- How many times `ctx.Err()` was called. -/
  ctxCalls : Nat
  /-- The calls made, oldest first. -/
  trace : List Event

/-- How the loop is left. -/
inductive LoopExit where
  /-- By `break`. -/
  | broke (s : LoopState)
  /-- By `return ctx.Err()`. -/
  | returned (err : error) (s : LoopState)

/-- The loop `for attempts := 1; ; attempts++`, run for at most `fuel`
iterations; `none` when it is still running after them. -/
def pingLoop (w : World) : Nat → LoopState → Option LoopExit
  | 0, _ => none
  | fuel + 1, s =>
    let pingError := w.ping (s.pings + 1)
    let s := { s with pings := s.pings + 1, trace := s.trace ++ [Event.ping] }
    match pingError with
    | none => some (LoopExit.broke s)
    | some _ =>
      let s := { s with trace := s.trace ++ [Event.sleep (sleepArg s.attempts)] }
      let s := { s with ctxCalls := s.ctxCalls + 1, trace := s.trace ++ [Event.ctxErr] }
      match w.ctxErr s.ctxCalls with
      | some _ =>
        let s := { s with ctxCalls := s.ctxCalls + 1, trace := s.trace ++ [Event.ctxErr] }
        some (LoopExit.returned (w.ctxErr s.ctxCalls) s)
      | none => pingLoop w fuel { s with attempts := wrapInt intSize (s.attempts + 1) }

/-- Go's `(*sql.Row).Scan`: the row's own error if it has one, else the
outcome of the scan. -/
def rowScan (w : World) : error :=
  match w.queryRow with
  | some e => some e
  | none => w.scan

/-- StatusCheck returns nil if it can successfully talk to the database. It
returns a non-nil error otherwise. The result is the returned error and the
calls made; `none` when the loop is still running after `fuel` iterations. -/
def StatusCheck (w : World) (fuel : Nat) : Option (error × List Event) :=
  match pingLoop w fuel { attempts := 1, pings := 0, ctxCalls := 0, trace := [] } with
  | none => none
  | some (LoopExit.returned err s) => some (err, s.trace)
  | some (LoopExit.broke s) =>
    let s := { s with ctxCalls := s.ctxCalls + 1, trace := s.trace ++ [Event.ctxErr] }
    match w.ctxErr s.ctxCalls with
    | some _ =>
      let s := { s with ctxCalls := s.ctxCalls + 1, trace := s.trace ++ [Event.ctxErr] }
      some (w.ctxErr s.ctxCalls, s.trace)
    | none =>
      let s := { s with trace := s.trace ++ [Event.queryRowContext (str "SELECT true")] }
      let s := { s with trace := s.trace ++ [Event.scan] }
      some (rowScan w, s.trace)

/-- The number of `db.Ping()` calls in a trace. -/
def pingCount (trace : List Event) : Nat :=
  trace.count Event.ping

/-- The number of liveness queries in a trace. -/
def queryCount (trace : List Event) : Nat :=
  (trace.filter (fun e => match e with
    | Event.queryRowContext _ => true
    | _ => false)).length

/-- The arguments of the `time.Sleep` calls in a trace, in order. -/
def sleeps (trace : List Event) : List Int :=
  trace.filterMap (fun e => match e with
    | Event.sleep d => some d
    | _ => none)

/-- The calls of one failed attempt: the ping, the sleep, the context check. -/
def failedAttempt (d : Int) : List Event :=
  [Event.ping, Event.sleep d, Event.ctxErr]

/-- The calls of a run whose first `n` pings fail with the context live, whose
next ping succeeds and which then runs the liveness query; `dur k` is the
argument of the sleep after the k-th failed ping. -/
def retryTrace (dur : Nat → Int) (n : Nat) : List Event :=
  (List.range n).flatMap (fun i => failedAttempt (dur (i + 1)))
    ++ [Event.ping, Event.ctxErr, Event.queryRowContext (str "SELECT true"), Event.scan]

/-- A world in which the first `n` pings fail and everything else succeeds. -/
def failingWorld (n : Nat) : World :=
  { ping := fun k => if k ≤ n then some (GoError.errorString 1) else none
    ctxErr := fun _ => none
    queryRow := none
    scan := none }

/-- The value of `attempts` after `n` executions of `attempts++`. -/
def attemptsAfter : Nat → Int
  | 0 => 1
  | n + 1 => wrapInt intSize (attemptsAfter n + 1)

/-- The argument of the sleep that follows the k-th failed ping. -/
def sleepOf (k : Nat) : Int :=
  sleepArg (attemptsAfter (k - 1))

/-- The condition under which the health check passes: some ping succeeds,
the context is live at every check up to and including the one after that
ping, and the liveness query and its scan succeed. -/
def World.healthy (w : World) : Prop :=
  ∃ N, 1 ≤ N ∧ (∀ k, 1 ≤ k → k < N → w.ping k ≠ none) ∧ w.ping N = none ∧
    (∀ i, 1 ≤ i → i ≤ N → w.ctxErr i = none) ∧ w.queryRow = none ∧ w.scan = none

/-- The error `context.Canceled`. -/
def Canceled : GoError := GoError.errorString 2

/-- A world whose context is cancelled from the start; `pingOk` tells whether
the pings succeed. -/
def cancelledWorld (pingOk : Bool) : World :=
  { ping := fun _ => if pingOk then none else some (GoError.errorString 1)
    ctxErr := fun _ => some Canceled
    queryRow := none
    scan := none }

/-! ## database.go: error classification -/

/-- The address of the sentinel `sql.ErrNoRows`. -/
def ErrNoRowsAddr : Nat := 0

/-- The sentinel `sql.ErrNoRows`. -/
def ErrNoRows : GoError := GoError.errorString ErrNoRowsAddr

/-- postgres errors. -/
def uniqueViolation : GoString := str "23505"

/-- A run-time panic. -/
inductive Panic where
  | nilPointerDereference
  deriving DecidableEq, Repr

/-- IsUniqueViolationError chec if the error code is 23505. Reading
`pgErr.Code` through a nil pointer panics. -/
def IsUniqueViolationError (err : error) : Except Panic Bool :=
  let (pgErr, found) := errorsAs err
  if found then
    match pgErr with
    | some pe => Except.ok (pe.Code == uniqueViolation)
    | none => Except.error Panic.nilPointerDereference
  else
    Except.ok false

/-- IsNoRowError checks if the error is caused by no row found in the database. -/
def IsNoRowError (err : error) : Bool :=
  errorsIs err ErrNoRowsAddr

/-- The first `*pgconn.PgError` of a list of errors, if there is one. -/
def firstPgError (errs : List GoError) : Option (Option PgError) :=
  errs.findSome? (fun e => match e with
    | GoError.pgError p => some p
    | _ => none)

/-- What `errors.Is` calls a match of the `*errors.errorString` at `target`:
the error is that value, or its type has an `Is` method that reports true for it. -/
def matchesTarget (target : Nat) (x : GoError) : Prop :=
  x = GoError.errorString target ∨
    ∃ methods errs isMethod, x = GoError.userError methods errs ∧
      methods.Is = some isMethod ∧ isMethod target = true

/-- No error of the list has an `As` method that reports true for a target of
type `**pgconn.PgError`. -/
def noAsAccepts (errs : List GoError) : Prop :=
  ∀ methods inner asMethod, GoError.userError methods inner ∈ errs →
    methods.As = some asMethod → ∀ pgErr, (asMethod pgErr).2 = false

/-- The error `err` wrapped `depth` times. -/
def wrapTimes : Nat → GoError → GoError
  | 0, err => err
  | depth + 1, err => GoError.wrapError (wrapTimes depth err)

/-- An error with an `As` method that reports false and leaves the target
as it is, wrapping `err`. -/
def declining (err : GoError) : GoError :=
  GoError.userError { Is := none, As := some (fun pgErr => (pgErr, false)) } [err]

/-- A unique-violation error of the driver inside three layers of wrapping,
next to a foreign-key violation. -/
def wrappedUniqueViolation : GoError :=
  GoError.wrapError (GoError.joinError
    [GoError.errorString 5,
     declining (GoError.wrapError (GoError.pgError (some ⟨str "23505", str "duplicate key"⟩))),
     GoError.pgError (some ⟨str "23503", str "foreign key"⟩)])

/-- An error with no `*pgconn.PgError` in its chain whose `As` method stores a
pointer to a unique-violation error in the target and reports true. -/
def convertingError : GoError :=
  GoError.userError
    { Is := none
      As := some (fun _ => (some ⟨str "23505", str "duplicate key"⟩, true)) } []

/-- An error that does not wrap anything and whose `Is` method reports true
for the sentinel `sql.ErrNoRows` alone. -/
def notFoundError : GoError :=
  GoError.userError { Is := some (fun target => target == ErrNoRowsAddr), As := none } []

/-! ## logger.go: the Logger middleware -/

/-- The fields of `*http.Request` the middleware reads; `Path` is `r.URL.Path`. -/
structure Request where
  Method : GoString
  Path : GoString
  RemoteAddr : GoString
  deriving DecidableEq, Repr

/-- The struct `web.Values` that the pointer `web.GetValues(ctx)` returns
points to, with the fields `logger.go` reads; `Now` is a time in nanoseconds. -/
structure web.Values where
  TraceID : GoString
  Now : Int
  StatusCode : Int
  deriving DecidableEq, Repr

/-- What the request pointer `r` and the values pointer `v` point to, and the
clock. A handler reaches all three and may change them. -/
structure WebState where
  request : Request
  values : web.Values
  /-- The reading `time.Now()` gives. -/
  now : Int
  deriving DecidableEq, Repr

/-- A value logged under a key. -/
inductive Field where
  | string (s : GoString)
  | int (n : Int)
  | duration (d : Int)
  deriving DecidableEq, Repr

/-- A `web.Handler` that returns: from the context, the response writer and
the state behind `r` and `v`, the error it returns and the state it leaves. -/
abbrev Handler := Nat → Nat → WebState → error × WebState

/-- The calls the handler built by `Logger` makes. -/
inductive WebCall where
  /-- The call `log.Infow(msg, keysAndValues...)` on logger `log`. -/
  | Infow (log : Nat) (msg : GoString) (keysAndValues : List (GoString × Field))
  /-- The call `handler(ctx, w, r)`, with what `r` points to at the call. -/
  | handler (ctx w : Nat) (r : Request)
  deriving DecidableEq, Repr

/-- Go's `time.Since(t)`, a `time.Duration`: the difference to the clock,
kept within `int64`. -/
def Since (now t : Int) : Int :=
  max (-(2 : Int) ^ 63) (min (now - t) (2 ^ 63 - 1))

/-- Logger writes information about the request to the logs. This is the
handler `h` that `Logger(log)(handler)` returns: the error and state it leaves,
and the log and handler calls it made. -/
def Logger (log : Nat) (handler : Handler) (ctx w : Nat) (st : WebState) :
    (error × WebState) × List WebCall :=
  let calls := [WebCall.Infow log (str "request started")
    [(str "trace_id", Field.string st.values.TraceID),
     (str "web_method", Field.string st.request.Method),
     (str "web_path", Field.string st.request.Path),
     (str "web_remoteaddr", Field.string st.request.RemoteAddr)]]
  let calls := calls ++ [WebCall.handler ctx w st.request]
  let (err, st) := handler ctx w st
  let calls := calls ++ [WebCall.Infow log (str "request completed")
    [(str "trace_id", Field.string st.values.TraceID),
     (str "web_method", Field.string st.request.Method),
     (str "web_path", Field.string st.request.Path),
     (str "web_remoteaddr", Field.string st.request.RemoteAddr),
     (str "web_status_code", Field.int st.values.StatusCode),
     (str "web_latency", Field.duration (Since st.now st.values.Now))]]
  ((err, st), calls)

/-- The log calls among a list of calls. -/
def logCalls (calls : List WebCall) : List WebCall :=
  calls.filter (fun c => match c with
    | WebCall.Infow _ _ _ => true
    | _ => false)

/-- A handler that sets the status code, lets a millisecond and a half pass
and fails. -/
def failingHandler : Handler :=
  fun _ _ st =>
    (some (GoError.errorString 9),
      { st with values := { st.values with StatusCode := 500 }, now := st.now + 1500000 })

/-- A request for `GET /health` at clock reading 10000000, its values made
at 9000000. -/
def healthRequest : WebState :=
  { request := { Method := str "GET", Path := str "/health", RemoteAddr := str "10.0.0.1:4242" }
    values := { TraceID := str "t-1", Now := 9000000, StatusCode := 0 }
    now := 10000000 }
/-! ## Properties of machine integers -/

theorem wrapInt_of_range (bits : Nat) (hb : 1 ≤ bits) (x : Int)
    (hlo : -(2 : Int) ^ (bits - 1) ≤ x) (hhi : x < (2 : Int) ^ (bits - 1)) :
    wrapInt bits x = x := by
  have h2 : (2 : Int) ^ bits = 2 * 2 ^ (bits - 1) := by
    rw [← pow_succ']
    congr 1
    omega
  unfold wrapInt
  rw [h2, Int.emod_eq_of_lt (by omega) (by omega)]
  omega

/-! ## Properties of Config.String -/

/-- The bytes `str` gives are the ASCII codes of the characters. -/
theorem str_bytes : str "GET /x?a=1" = [71, 69, 84, 32, 47, 120, 63, 97, 61, 49] := by
  decide

theorem escapeByte_of_not_shouldEscape {mode : encoding} {c : UInt8}
    (hm : mode ≠ encodeQueryComponent) (hc : shouldEscape c mode = false) :
    escapeByte mode c = [c] := by
  simp [escapeByte, hm, hc]

theorem escape_eq_self {mode : encoding} (hm : mode ≠ encodeQueryComponent) :
    ∀ s : GoString, (∀ c ∈ s, shouldEscape c mode = false) → escape s mode = s := by
  intro s
  induction s with
  | nil => intro _; rfl
  | cons c cs ih =>
    intro h
    have hc : shouldEscape c mode = false := h c (List.mem_cons_self c cs)
    have hcs : escape cs mode = cs := ih (fun d hd => h d (List.mem_cons_of_mem c hd))
    simp only [escape, List.flatMap_cons] at hcs ⊢
    rw [escapeByte_of_not_shouldEscape hm hc, hcs]
    rfl

theorem encode_query (cfg : Config) :
    cfg.query.Encode = str "sslmode=" ++ cfg.sslMode ++ str "&timezone=utc" := by
  cases cfg with
  | mk u p h n tls =>
    cases tls <;> simp only [Config.query, Config.sslMode, Bool.false_eq_true, if_true, if_false]
      <;> decide


/-- The shape of `(*URL).String` for a URL with a scheme, user information and
a query, as `Config.String` builds it. -/
theorem URL_String_of (u : URL) (ui : Userinfo) (hS : u.Scheme ≠ [])
    (hU : u.User = some ui) (hQ : u.RawQuery ≠ []) :
    u.String = u.Scheme ++ str "://" ++ ui.String ++ str "@"
      ++ (if u.Host ≠ [] then escape u.Host encodeHost else [])
      ++ (if u.EscapedPath ≠ [] ∧ u.EscapedPath.head? ≠ some (ch '/') ∧ u.Host ≠ []
          then str "/" else [])
      ++ u.EscapedPath ++ str "?" ++ u.RawQuery := by
  have h1 : str "://" = str ":" ++ str "//" := by decide
  unfold URL.String
  simp only [hS, hU, hQ, h1, ne_eq, not_false_eq_true, if_true, true_or, or_true,
    List.nil_append, reduceCtorEq]
  by_cases hH : u.Host = []
  · simp [hH, hS]
  · by_cases hP : u.EscapedPath = []
    · simp [hH, hS, hP]
    · by_cases hP2 : u.EscapedPath.head? = some (ch '/')
      · simp [hH, hS, hP, hP2]
      · simp [hH, hS, hP, hP2]

/-- What `Config.String` writes: each component passed through its escaper. -/
theorem Config_String_eq (cfg : Config) :
    cfg.String = str "postgres://" ++ escape cfg.User encodeUserPassword ++ str ":"
      ++ escape cfg.Password encodeUserPassword ++ str "@"
      ++ (if cfg.Host ≠ [] then escape cfg.Host encodeHost else [])
      ++ (if (cfg.url cfg.query).EscapedPath ≠ [] ∧
            (cfg.url cfg.query).EscapedPath.head? ≠ some (ch '/') ∧ cfg.Host ≠ []
          then str "/" else [])
      ++ (cfg.url cfg.query).EscapedPath
      ++ str "?" ++ (str "sslmode=" ++ cfg.sslMode ++ str "&timezone=utc") := by
  have hq := encode_query cfg
  have hs : (cfg.url cfg.query).Scheme ≠ [] := by
    show str "postgres" ≠ []
    decide
  have hne : (cfg.url cfg.query).RawQuery ≠ [] := by
    show cfg.query.Encode ≠ []
    rw [hq]
    simp [str]
  have h := URL_String_of (cfg.url cfg.query) (UserPassword cfg.User cfg.Password) hs rfl hne
  have h2 : str "postgres" ++ str "://" = str "postgres://" := by decide
  have h3 : (cfg.url cfg.query).RawQuery = cfg.query.Encode := rfl
  have h4 : (cfg.url cfg.query).Scheme = str "postgres" := rfl
  have h5 : (cfg.url cfg.query).Host = cfg.Host := rfl
  rw [Config.String, h, h3, hq, h4, h5, h2]
  simp [Userinfo.String, UserPassword]

/-- C4 (as stated, refuted): a password holding `@` is percent-encoded, so the
URI is not the template with the strings inserted as given. -/
theorem Config_String_escapes_password :
    Config.String ⟨str "u", str "p@ss", str "db:5432", str "app", true⟩
        = str "postgres://u:p%40ss@db:5432/app?sslmode=disable&timezone=utc" ∧
      Config.String ⟨str "u", str "p@ss", str "db:5432", str "app", true⟩
        ≠ uriTemplate ⟨str "u", str "p@ss", str "db:5432", str "app", true⟩ := by
  decide

/-- C4 (amended): when no byte of User and Password is one the user-information
escaper rewrites, Host is non-empty with no byte the host escaper rewrites, and
Name is non-empty, does not start with `/` and is `*` or has no byte the path
escaper rewrites, `Config.String` is exactly
`postgres://<user>:<password>@<host>/<name>?sslmode=<disable|require>&timezone=utc`
with the four strings inserted as given. -/
theorem Config_String_template (cfg : Config)
    (hUser : ∀ c ∈ cfg.User, shouldEscape c encodeUserPassword = false)
    (hPassword : ∀ c ∈ cfg.Password, shouldEscape c encodeUserPassword = false)
    (hHost : cfg.Host ≠ [] ∧ ∀ c ∈ cfg.Host, shouldEscape c encodeHost = false)
    (hName : cfg.Name ≠ [] ∧ cfg.Name.head? ≠ some (ch '/') ∧
      (cfg.Name = str "*" ∨ ∀ c ∈ cfg.Name, shouldEscape c encodePath = false)) :
    cfg.String = uriTemplate cfg := by
  have hp : (cfg.url cfg.query).EscapedPath = cfg.Name := by
    show (if cfg.Name = str "*" then str "*" else escape cfg.Name encodePath) = cfg.Name
    split
    · next h => exact h.symm
    · next h =>
      rcases hName.2.2 with h' | h'
      · exact absurd h' h
      · exact escape_eq_self (by decide) cfg.Name h'
  rw [Config_String_eq, hp, escape_eq_self (by decide) cfg.User hUser,
    escape_eq_self (by decide) cfg.Password hPassword,
    escape_eq_self (by decide) cfg.Host hHost.2]
  simp [uriTemplate, hHost.1, hName.1, hName.2.1]
  rfl

/-- C4 (amended), at the example configuration of the specification. -/
theorem Config_String_template_witness :
    Config.String ⟨str "u", str "p", str "db:5432", str "app", true⟩
      = str "postgres://u:p@db:5432/app?sslmode=disable&timezone=utc" :=
  (Config_String_template ⟨str "u", str "p", str "db:5432", str "app", true⟩
    (by decide) (by decide) (by decide) (by decide)).trans (by decide)

theorem upperhex_getD_ne_question (i : Nat) : upperhex.getD i 0 ≠ ch '?' := by
  by_cases h : i < 16
  · interval_cases i <;> decide
  · have hl : upperhex.length ≤ i := by
      have : upperhex.length = 16 := by decide
      omega
    rw [List.getD_eq_default _ _ hl]
    decide

theorem question_not_mem_escapeByte {mode : encoding}
    (hm : shouldEscape (ch '?') mode = true) (c : UInt8) : ch '?' ∉ escapeByte mode c := by
  unfold escapeByte
  split
  · decide
  · split
    · next hc =>
      intro hmem
      simp only [List.mem_cons, List.mem_singleton, List.not_mem_nil, or_false] at hmem
      rcases hmem with h | h | h
      · exact absurd h (by decide)
      · exact upperhex_getD_ne_question _ h.symm
      · exact upperhex_getD_ne_question _ h.symm
    · next hc =>
      intro hmem
      rw [List.mem_singleton] at hmem
      rw [← hmem] at hc
      exact hc hm

theorem question_not_mem_escape {mode : encoding}
    (hm : shouldEscape (ch '?') mode = true) (s : GoString) : ch '?' ∉ escape s mode := by
  intro hmem
  rw [escape, List.mem_flatMap] at hmem
  obtain ⟨c, _, hc⟩ := hmem
  exact question_not_mem_escapeByte hm c hc

theorem queryPart_append (p q : GoString) (hp : ch '?' ∉ p) :
    queryPart (p ++ str "?" ++ q) = q := by
  induction p with
  | nil => rfl
  | cons c cs ih =>
    have hc : c ≠ ch '?' := fun h => hp (h ▸ List.mem_cons_self c cs)
    have hcs : ch '?' ∉ cs := fun h => hp (List.mem_cons_of_mem c h)
    have ih' := ih hcs
    simp only [queryPart, List.cons_append, List.dropWhile_cons, bne_iff_ne, ne_eq, hc,
      not_false_eq_true, if_true] at ih' ⊢
    exact ih'

theorem perm_pair {α : Type} {a b : α} {l : List α} (h : l.Perm [a, b]) :
    l = [a, b] ∨ l = [b, a] := by
  match l, h with
  | [], h => exact absurd h.length_eq (by simp)
  | [x], h => exact absurd h.length_eq (by simp)
  | x :: y :: z :: t, h => exact absurd h.length_eq (by simp)
  | [x, y], h =>
    have hx : x ∈ [a, b] := h.subset (List.mem_cons_self x [y])
    simp only [List.mem_cons, List.mem_singleton, List.not_mem_nil, or_false] at hx
    rcases hx with rfl | rfl
    · left
      have := (List.perm_cons x).1 h
      rw [List.perm_singleton.1 this]
    · right
      have h2 : [x, y].Perm [x, a] := h.trans (List.Perm.swap x a [])
      have := (List.perm_cons x).1 h2
      rw [List.perm_singleton.1 this]

theorem sslMode_cases (cfg : Config) :
    (cfg.DisableTLS = true ∧ cfg.sslMode = str "disable") ∨
      (cfg.DisableTLS = false ∧ cfg.sslMode = str "require") := by
  rcases Bool.eq_false_or_eq_true cfg.DisableTLS with hT | hT
  · exact Or.inl ⟨hT, by simp [Config.sslMode, hT]⟩
  · exact Or.inr ⟨hT, by simp [Config.sslMode, hT]⟩

theorem question_not_mem_EscapedPath (u : URL) : ch '?' ∉ u.EscapedPath := by
  unfold URL.EscapedPath
  split
  · decide
  · exact question_not_mem_escape (by decide) _

theorem queryPart_Config_String (cfg : Config) :
    queryPart cfg.String = str "sslmode=" ++ cfg.sslMode ++ str "&timezone=utc" := by
  rw [Config_String_eq]
  apply queryPart_append
  have hU : ch '?' ∉ escape cfg.User encodeUserPassword :=
    question_not_mem_escape (by decide) cfg.User
  have hP : ch '?' ∉ escape cfg.Password encodeUserPassword :=
    question_not_mem_escape (by decide) cfg.Password
  have hH : ch '?' ∉ escape cfg.Host encodeHost :=
    question_not_mem_escape (by decide) cfg.Host
  have hN := question_not_mem_EscapedPath (cfg.url cfg.query)
  have h1 : ch '?' ∉ str "postgres://" := by decide
  have h2 : ch '?' ∉ str ":" := by decide
  have h3 : ch '?' ∉ str "@" := by decide
  have h4 : ch '?' ∉ str "/" := by decide
  have h5 : ch '?' ∉ (if cfg.Host ≠ [] then escape cfg.Host encodeHost else []) := by
    split
    · exact hH
    · exact List.not_mem_nil _
  have h6 : ch '?' ∉ (if (cfg.url cfg.query).EscapedPath ≠ [] ∧
      (cfg.url cfg.query).EscapedPath.head? ≠ some (ch '/') ∧ cfg.Host ≠ []
      then str "/" else []) := by
    split
    · exact h4
    · exact List.not_mem_nil _
  intro hmem
  simp only [List.mem_append] at hmem
  rcases hmem with ((((((h | h) | h) | h) | h) | h) | h) | h
  · exact h1 h
  · exact hU h
  · exact h2 h
  · exact hP h
  · exact h3 h
  · exact h5 h
  · exact h6 h
  · exact hN h

/-- C5: the query part of `Config.String` (what follows the first `?`) is made
of exactly two parameters, `sslmode=disable` when `DisableTLS` is set and
`sslmode=require` when it is not, followed by `timezone=utc`; the string is the
same for every order in which the query map is visited, and two configurations
with the same five fields give the same string. -/
theorem Config_String_query (cfg : Config) :
    queryParams cfg.String
        = (if cfg.DisableTLS then [str "sslmode=disable", str "timezone=utc"]
            else [str "sslmode=require", str "timezone=utc"]) ∧
      (∀ q : Values, q.Perm cfg.query → (cfg.url q).String = cfg.String) ∧
      (∀ other : Config, other.User = cfg.User → other.Password = cfg.Password →
        other.Host = cfg.Host → other.Name = cfg.Name → other.DisableTLS = cfg.DisableTLS →
        other.String = cfg.String) := by
  refine ⟨?_, ?_, ?_⟩
  · rw [queryParams, queryPart_Config_String]
    rcases sslMode_cases cfg with ⟨hT, hm⟩ | ⟨hT, hm⟩ <;> rw [hm, hT] <;> decide
  · intro q hq
    have hE : q.Encode = cfg.query.Encode := by
      have hq2 : cfg.query = [(str "sslmode", [cfg.sslMode]), (str "timezone", [str "utc"])] := by
        rcases sslMode_cases cfg with ⟨_, hm⟩ | ⟨_, hm⟩ <;> rw [Config.query, hm] <;> decide
      rw [hq2] at hq ⊢
      rcases sslMode_cases cfg with ⟨_, hm⟩ | ⟨_, hm⟩ <;> rw [hm] at hq ⊢ <;>
        rcases perm_pair hq with rfl | rfl <;> decide
    show (cfg.url q).String = (cfg.url cfg.query).String
    simp only [Config.url, hE]
  · intro other h1 h2 h3 h4 h5
    cases cfg
    cases other
    simp only at h1 h2 h3 h4 h5
    subst h1 h2 h3 h4 h5
    rfl

/-! ## Properties of Open -/

theorem GOMAXPROCS_lt (gomaxprocs : Int) : GOMAXPROCS gomaxprocs < 2 ^ 31 := by
  unfold GOMAXPROCS wrapInt
  have h := Int.emod_lt_of_pos (gomaxprocs + 2 ^ (32 - 1)) (by norm_num : (0 : Int) < 2 ^ 32)
  norm_num at h ⊢
  omega

theorem wrapInt_four_mul (P : Int) (h1 : 1 ≤ P) (h2 : P < 2 ^ 31) :
    wrapInt intSize (4 * P) = 4 * P :=
  wrapInt_of_range intSize (by decide) _ (by norm_num [intSize]; omega)
    (by norm_num [intSize]; omega)

theorem pool_limits (config : ConnConfig) (n : Int) (hn : 4 ≤ n) :
    (((OpenDB config).SetMaxOpenConns n).SetMaxIdleConns n).maxOpen = n ∧
      (((OpenDB config).SetMaxOpenConns n).SetMaxIdleConns n).maxIdleCount = n ∧
      (((OpenDB config).SetMaxOpenConns n).SetMaxIdleConns n).maxIdleConnsLocked = n := by
  have h1 : ¬ n < 0 := by omega
  have h2 : n > 0 := by omega
  have h3 : ¬ (2 : Int) > n := by omega
  have h4 : ¬ n = 0 := by omega
  simp [OpenDB, SqlDB.SetMaxOpenConns, SqlDB.SetMaxIdleConns, SqlDB.maxIdleConnsLocked,
    h1, h2, h3, h4]

/-- C8: when the URI parses and `runtime.GOMAXPROCS(0)` returns P ≥ 1, `Open`
returns a handle whose maximum number of open connections and maximum number of
idle connections are both exactly 4·P, and so equal. -/
theorem Open_pool_size (ParseConfig : GoString → Except GoError ConnConfig)
    (gomaxprocs : Int) (cfg : Config) (pgxConfig : ConnConfig)
    (hparse : ParseConfig cfg.String = Except.ok pgxConfig)
    (hP : 1 ≤ GOMAXPROCS gomaxprocs) :
    ∃ db, (Open ParseConfig gomaxprocs cfg).db = some db ∧
      db.sqldb.maxOpen = 4 * GOMAXPROCS gomaxprocs ∧
      db.sqldb.maxIdleCount = 4 * GOMAXPROCS gomaxprocs ∧
      db.sqldb.maxIdleConnsLocked = 4 * GOMAXPROCS gomaxprocs ∧
      db.sqldb.maxOpen = db.sqldb.maxIdleConnsLocked := by
  have hw := wrapInt_four_mul (GOMAXPROCS gomaxprocs) hP (GOMAXPROCS_lt gomaxprocs)
  have hp := pool_limits
    { pgxConfig with DefaultQueryExecMode := QueryExecMode.QueryExecModeSimpleProtocol }
    (4 * GOMAXPROCS gomaxprocs) (by omega)
  refine ⟨_, by simp only [Open, hparse, hw]; rfl, ?_⟩
  simp only [BunDB.AddQueryHook, NewDB]
  exact ⟨hp.1, hp.2.1, hp.2.2, hp.1.trans hp.2.2.symm⟩

/-- C8, on a host with eight units of parallelism: both limits are 32. -/
theorem Open_pool_size_witness :
    GOMAXPROCS 8 = 8 ∧
      ∃ db, (Open acceptAll 8 exampleConfig).db = some db ∧
        db.sqldb.maxOpen = 4 * GOMAXPROCS 8 ∧
        db.sqldb.maxIdleCount = 4 * GOMAXPROCS 8 ∧
        db.sqldb.maxIdleConnsLocked = 4 * GOMAXPROCS 8 ∧
        db.sqldb.maxOpen = db.sqldb.maxIdleConnsLocked :=
  ⟨by decide, Open_pool_size acceptAll 8 exampleConfig _ rfl (by decide)⟩

theorem SetMaxIdleConns_connector (db : SqlDB) (n : Int) :
    (db.SetMaxIdleConns n).connector = db.connector := by
  simp only [SqlDB.SetMaxIdleConns]
  split <;> split <;> rfl

theorem SetMaxOpenConns_connector (db : SqlDB) (n : Int) :
    (db.SetMaxOpenConns n).connector = db.connector := by
  simp only [SqlDB.SetMaxOpenConns]
  split <;> split <;> first | rfl | rw [SetMaxIdleConns_connector]

/-- C9: `Open` fails exactly when parsing the URI of `Config.String` fails.
Then it returns no handle and the parser's error, having made no call but the
parse. Otherwise it returns a handle and a nil error; the handle's connector has
the query execution mode set to the simple protocol, and the calls made are the
parse, `OpenDB`, `GOMAXPROCS`, the two pool settings, `NewDB` and `AddQueryHook`
with the database name: no ping and no query. -/
theorem Open_fails_iff (ParseConfig : GoString → Except GoError ConnConfig)
    (gomaxprocs : Int) (cfg : Config) :
    ((Open ParseConfig gomaxprocs cfg).err ≠ none
        ↔ ∃ err, ParseConfig cfg.String = Except.error err) ∧
      (∀ err, ParseConfig cfg.String = Except.error err →
        (Open ParseConfig gomaxprocs cfg).db = none ∧
          (Open ParseConfig gomaxprocs cfg).err = some err ∧
          (Open ParseConfig gomaxprocs cfg).calls = [OpenCall.ParseConfig cfg.String]) ∧
      (∀ pgxConfig, ParseConfig cfg.String = Except.ok pgxConfig →
        (Open ParseConfig gomaxprocs cfg).err = none ∧
          ∃ db, (Open ParseConfig gomaxprocs cfg).db = some db ∧
            db.sqldb.connector
              = { pgxConfig with
                  DefaultQueryExecMode := QueryExecMode.QueryExecModeSimpleProtocol } ∧
            db.queryHooks = [{ dbName := cfg.Name }] ∧
            (Open ParseConfig gomaxprocs cfg).calls
              = [OpenCall.ParseConfig cfg.String,
                 OpenCall.OpenDB { pgxConfig with
                   DefaultQueryExecMode := QueryExecMode.QueryExecModeSimpleProtocol },
                 OpenCall.GOMAXPROCS 0,
                 OpenCall.SetMaxOpenConns (wrapInt intSize (4 * GOMAXPROCS gomaxprocs)),
                 OpenCall.SetMaxIdleConns (wrapInt intSize (4 * GOMAXPROCS gomaxprocs)),
                 OpenCall.NewDB, OpenCall.AddQueryHook { dbName := cfg.Name }]) := by
  cases hparse : ParseConfig cfg.String with
  | error e =>
    refine ⟨?_, ?_, ?_⟩
    · simp [Open, hparse]
    · intro err herr
      cases herr
      simp [Open, hparse]
    · intro pgxConfig h
      cases h
  | ok c =>
    refine ⟨?_, ?_, ?_⟩
    · simp [Open, hparse]
    · intro err h
      cases h
    · intro pgxConfig h
      cases h
      refine ⟨by simp [Open, hparse], _, by simp only [Open, hparse]; rfl, ?_, ?_, ?_⟩
      · simp only [BunDB.AddQueryHook, NewDB]
        rw [SetMaxIdleConns_connector, SetMaxOpenConns_connector]
        rfl
      · rfl
      · simp [Open, hparse]

/-! ## Properties of StatusCheck -/

theorem flatMap_range_succ_front {α : Type} (f : Nat → List α) (m : Nat) :
    (List.range (m + 1)).flatMap f = f 0 ++ (List.range m).flatMap (fun i => f (i + 1)) := by
  rw [List.range_succ_eq_map, List.flatMap_cons, List.flatMap_map]

/-- While the pings fail and the context stays live, the loop goes round. -/
theorem pingLoop_failures (w : World) :
    ∀ (m fuel n0 p c : Nat) (t : List Event),
      (∀ j, 1 ≤ j → j ≤ m → w.ping (p + j) ≠ none) →
      (∀ j, 1 ≤ j → j ≤ m → w.ctxErr (c + j) = none) →
      pingLoop w (m + fuel) ⟨attemptsAfter n0, p, c, t⟩
        = pingLoop w fuel ⟨attemptsAfter (n0 + m), p + m, c + m,
            t ++ (List.range m).flatMap
              (fun i => failedAttempt (sleepArg (attemptsAfter (n0 + i))))⟩ := by
  intro m
  induction m with
  | zero =>
    intro fuel n0 p c t _ _
    simp
  | succ m ih =>
    intro fuel n0 p c t hp hc
    have hp1 : w.ping (p + 1) ≠ none := hp 1 (le_refl 1) (by omega)
    have hc1 : w.ctxErr (c + 1) = none := hc 1 (le_refl 1) (by omega)
    obtain ⟨e, he⟩ := Option.ne_none_iff_exists'.1 hp1
    have hstep : pingLoop w (m + fuel + 1) ⟨attemptsAfter n0, p, c, t⟩
        = pingLoop w (m + fuel) ⟨attemptsAfter (n0 + 1), p + 1, c + 1,
            t ++ failedAttempt (sleepArg (attemptsAfter n0))⟩ := by
      simp [pingLoop, he, hc1, failedAttempt, attemptsAfter]
    have hfuel : m + 1 + fuel = m + fuel + 1 := by omega
    rw [hfuel, hstep, ih fuel (n0 + 1) (p + 1) (c + 1) _
      (fun j h1 h2 => by
        have := hp (j + 1) (by omega) (by omega)
        rwa [show p + 1 + j = p + (j + 1) by omega])
      (fun j h1 h2 => by
        have := hc (j + 1) (by omega) (by omega)
        rwa [show c + 1 + j = c + (j + 1) by omega])]
    have e1 : ∀ a i : Nat, a + 1 + i = a + (i + 1) := fun a i => by omega
    rw [flatMap_range_succ_front]
    simp only [e1, List.append_assoc, Nat.add_zero]

theorem attemptsAfter_eq :
    ∀ n : Nat, ((n : Int) + 1 < (2 : Int) ^ 63) → attemptsAfter n = (n : Int) + 1 := by
  intro n
  induction n with
  | zero => intro _; rfl
  | succ n ih =>
    intro h
    have hn : attemptsAfter n = (n : Int) + 1 := ih (by push_cast at h; omega)
    rw [attemptsAfter, hn, wrapInt_of_range intSize (by decide) _
      (by norm_num [intSize]; omega) (by norm_num [intSize]; push_cast at h; omega)]
    push_cast
    ring

theorem sleepArg_eq (a : Int) (h0 : 0 ≤ a) (h1 : a ≤ 9223372036) :
    sleepArg a = a * Second := by
  unfold sleepArg Second
  rw [wrapInt_of_range 64 (by decide) a (by norm_num; omega) (by norm_num; omega),
    wrapInt_of_range 64 (by decide) (a * 1000) (by norm_num; omega) (by norm_num; omega),
    wrapInt_of_range 64 (by decide) (a * 1000 * 1000000) (by norm_num; omega)
      (by norm_num; omega)]
  ring

/-- As long as k seconds fit `time.Duration`, the sleep after the k-th failed
ping is k seconds. -/
theorem sleepOf_eq (k : Nat) (h1 : 1 ≤ k) (hd : k ≤ 9223372036) :
    sleepOf k = (k : Int) * Second := by
  have ha : attemptsAfter (k - 1) = (k : Int) := by
    rw [attemptsAfter_eq (k - 1) (by
      have : ((k - 1 : Nat) : Int) = (k : Int) - 1 := by omega
      rw [this]; norm_num; omega)]
    omega
  rw [sleepOf, ha, sleepArg_eq _ (by omega) (by omega)]

/-- The loop from the start, while the first `n` pings fail and the context stays live. -/
theorem pingLoop_start (w : World) (n fuel : Nat)
    (hfail : ∀ k, 1 ≤ k → k ≤ n → w.ping k ≠ none)
    (hctx : ∀ i, 1 ≤ i → i ≤ n → w.ctxErr i = none) :
    pingLoop w (n + fuel) ⟨1, 0, 0, []⟩
      = pingLoop w fuel ⟨attemptsAfter n, n, n,
          (List.range n).flatMap (fun i => failedAttempt (sleepOf (i + 1)))⟩ := by
  have h := pingLoop_failures w n fuel 0 0 0 []
    (fun j h1 h2 => by rw [Nat.zero_add]; exact hfail j h1 h2)
    (fun j h1 h2 => by rw [Nat.zero_add]; exact hctx j h1 h2)
  simpa [attemptsAfter, sleepOf] using h

/-- With `n` failed pings, a live context and a successful ping after them,
`StatusCheck` runs the liveness query and returns its result. -/
theorem StatusCheck_of_failures (w : World) (n : Nat)
    (hfail : ∀ k, 1 ≤ k → k ≤ n → w.ping k ≠ none) (hok : w.ping (n + 1) = none)
    (hctx : ∀ i, 1 ≤ i → i ≤ n + 1 → w.ctxErr i = none) :
    ∀ fuel, n + 1 ≤ fuel →
      StatusCheck w fuel = some (rowScan w, retryTrace sleepOf n) := by
  intro fuel hfuel
  obtain ⟨f, rfl⟩ : ∃ f, fuel = n + (f + 1) := ⟨fuel - n - 1, by omega⟩
  have hc1 : w.ctxErr (n + 1) = none := hctx (n + 1) (by omega) (le_refl _)
  rw [StatusCheck, pingLoop_start w n (f + 1) hfail
    (fun i h1 h2 => hctx i h1 (by omega))]
  simp [pingLoop, hok, hc1, retryTrace]

/-- How a loop that has ended went: some number `m` of failed pings with the
context live after each, then either a successful ping or a cancelled context. -/
theorem pingLoop_exit (w : World) :
    ∀ (fuel : Nat) (s : LoopState) (exit : LoopExit), pingLoop w fuel s = some exit →
      ∃ m, m < fuel ∧ (∀ j, 1 ≤ j → j ≤ m → w.ping (s.pings + j) ≠ none) ∧
        (∀ j, 1 ≤ j → j ≤ m → w.ctxErr (s.ctxCalls + j) = none) ∧
        ((w.ping (s.pings + m + 1) = none ∧
            ∃ s', exit = LoopExit.broke s' ∧ s'.ctxCalls = s.ctxCalls + m) ∨
          (w.ctxErr (s.ctxCalls + m + 1) ≠ none ∧
            ∃ s', exit = LoopExit.returned (w.ctxErr (s.ctxCalls + m + 2)) s')) := by
  intro fuel
  induction fuel with
  | zero =>
    intro s exit h
    simp [pingLoop] at h
  | succ fuel ih =>
    intro s exit h
    rw [pingLoop] at h
    cases hp : w.ping (s.pings + 1) with
    | none =>
      simp only [hp] at h
      refine ⟨0, by omega, fun j h1 h2 => by omega, fun j h1 h2 => by omega, Or.inl ⟨hp, ?_⟩⟩
      exact ⟨_, (Option.some.inj h).symm, rfl⟩
    | some e =>
      simp only [hp] at h
      cases hc : w.ctxErr (s.ctxCalls + 1) with
      | some e' =>
        simp only [hc] at h
        refine ⟨0, by omega, fun j h1 h2 => by omega, fun j h1 h2 => by omega, Or.inr ⟨?_, ?_⟩⟩
        · rw [Nat.add_zero, hc]; exact Option.some_ne_none e'
        · exact ⟨_, (Option.some.inj h).symm⟩
      | none =>
        simp only [hc] at h
        obtain ⟨m, hm, hpings, hctx, hend⟩ := ih _ exit h
        simp only at hpings hctx hend
        have e1 : ∀ a i : Nat, a + 1 + i = a + (i + 1) := fun a i => by omega
        refine ⟨m + 1, by omega, ?_, ?_, ?_⟩
        · intro j h1 h2
          rcases Nat.eq_or_lt_of_le h1 with rfl | hj
          · rw [hp]; exact Option.some_ne_none e
          · have := hpings (j - 1) (by omega) (by omega)
            rwa [e1, show j - 1 + 1 = j by omega] at this
        · intro j h1 h2
          rcases Nat.eq_or_lt_of_le h1 with rfl | hj
          · exact hc
          · have := hctx (j - 1) (by omega) (by omega)
            rwa [e1, show j - 1 + 1 = j by omega] at this
        · rcases hend with ⟨h1, s', h2, h3⟩ | ⟨h1, s', h2⟩
          · exact Or.inl ⟨by rwa [e1] at h1, s', h2, by rw [h3]; omega⟩
          · refine Or.inr ⟨by rwa [e1] at h1, s', ?_⟩
            rw [h2]
            congr 2
            omega

/-- How a run of `StatusCheck` that has ended went. -/
theorem StatusCheck_run (w : World) (fuel : Nat) (r : error) (trace : List Event)
    (h : StatusCheck w fuel = some (r, trace)) :
    ∃ n, n < fuel ∧ (∀ k, 1 ≤ k → k ≤ n → w.ping k ≠ none) ∧
      (∀ i, 1 ≤ i → i ≤ n → w.ctxErr i = none) ∧
      ((w.ping (n + 1) = none ∧ w.ctxErr (n + 1) = none ∧ r = rowScan w) ∨
        (w.ctxErr (n + 1) ≠ none ∧ r = w.ctxErr (n + 2))) := by
  unfold StatusCheck at h
  cases hl : pingLoop w fuel ⟨1, 0, 0, []⟩ with
  | none => simp [hl] at h
  | some exit =>
    obtain ⟨m, hm, hpings, hctx, hend⟩ := pingLoop_exit w fuel _ exit hl
    simp only [Nat.zero_add] at hpings hctx hend
    refine ⟨m, hm, hpings, hctx, ?_⟩
    rcases hend with ⟨h1, s', h2, h3⟩ | ⟨h1, s', h2⟩
    · subst h2
      simp only [hl, h3] at h
      cases hc : w.ctxErr (m + 1) with
      | none =>
        simp only [hc] at h
        exact Or.inl ⟨h1, rfl, (Prod.mk.inj (Option.some.inj h)).1.symm⟩
      | some e =>
        simp only [hc] at h
        exact Or.inr ⟨Option.some_ne_none e, (Prod.mk.inj (Option.some.inj h)).1.symm⟩
    · subst h2
      simp only [hl] at h
      exact Or.inr ⟨h1, (Prod.mk.inj (Option.some.inj h)).1.symm⟩

theorem failingWorld_ctxStable (n : Nat) : (failingWorld n).ctxStable := by
  intro i e h
  simp [failingWorld] at h

theorem failingWorld_healthy (n : Nat) : (failingWorld n).healthy := by
  refine ⟨n + 1, by omega, ?_, ?_, ?_, rfl, rfl⟩
  · intro k _ hk
    have : k ≤ n := by omega
    simp [failingWorld, this]
  · simp [failingWorld]
  · intro i _ _
    rfl

/-- C1: in a world whose context keeps its error once set, `StatusCheck`
returns nil exactly when some ping succeeds, the context is live at every check
made up to and including the one after that ping, and the liveness query with
its scan succeeds: in such a world it does return nil, and every run that ends
returns nil in such a world and a non-nil error in any other. -/
theorem StatusCheck_nil_iff (w : World) (hstable : w.ctxStable) :
    (w.healthy → ∃ fuel trace, StatusCheck w fuel = some (none, trace)) ∧
      (∀ fuel r trace, StatusCheck w fuel = some (r, trace) → (r = none ↔ w.healthy)) := by
  constructor
  · rintro ⟨N, hN, hfail, hok, hctx, hq, hs⟩
    obtain ⟨n, rfl⟩ : ∃ n, N = n + 1 := ⟨N - 1, by omega⟩
    have h := StatusCheck_of_failures w n (fun k h1 h2 => hfail k h1 (by omega)) hok hctx
      (n + 1) (le_refl _)
    have hr : rowScan w = none := by simp [rowScan, hq, hs]
    rw [hr] at h
    exact ⟨n + 1, _, h⟩
  · intro fuel r trace h
    obtain ⟨n, _, hpings, hctx, hend⟩ := StatusCheck_run w fuel r trace h
    constructor
    · intro hr
      rcases hend with ⟨h1, h2, h3⟩ | ⟨h1, h3⟩
      · refine ⟨n + 1, by omega, fun k k1 k2 => hpings k k1 (by omega), h1, ?_, ?_⟩
        · intro i i1 i2
          rcases Nat.eq_or_lt_of_le i2 with rfl | hi
          · exact h2
          · exact hctx i i1 (by omega)
        · rw [hr] at h3
          unfold rowScan at h3
          cases hq : w.queryRow with
          | none =>
            rw [hq] at h3
            exact ⟨rfl, h3.symm⟩
          | some e =>
            rw [hq] at h3
            exact absurd h3 (Option.some_ne_none e).symm
      · obtain ⟨e, he⟩ := Option.ne_none_iff_exists'.1 h1
        have := hstable (n + 1) e he
        rw [hr] at h3
        rw [← h3] at this
        exact absurd this (Option.some_ne_none e).symm
    · rintro ⟨N, hN, hfail, hok, hctxN, hq, hs⟩
      have hN' : N = n + 1 := by
        rcases Nat.lt_trichotomy N (n + 1) with hlt | heq | hgt
        · exact absurd hok (hpings N hN (by omega))
        · exact heq
        · rcases hend with ⟨h1, _, _⟩ | ⟨h1, _⟩
          · exact absurd h1 (hfail (n + 1) (by omega) hgt)
          · exact absurd (hctxN (n + 1) (by omega) (by omega)) h1
      subst hN'
      rcases hend with ⟨_, _, h3⟩ | ⟨h1, _⟩
      · rw [h3]
        simp [rowScan, hq, hs]
      · exact absurd (hctxN (n + 1) (by omega) (le_refl _)) h1

/-- C1, at a world whose first two pings fail: the third attempt passes. -/
theorem StatusCheck_nil_iff_witness :
    (failingWorld 2).ctxStable ∧
      (∃ fuel trace, StatusCheck (failingWorld 2) fuel = some (none, trace)) ∧
      ((none : error) = none ↔ (failingWorld 2).healthy) :=
  ⟨failingWorld_ctxStable 2,
    (StatusCheck_nil_iff (failingWorld 2) (failingWorld_ctxStable 2)).1
      (failingWorld_healthy 2),
    (StatusCheck_nil_iff (failingWorld 2) (failingWorld_ctxStable 2)).2 3 none
      (retryTrace sleepOf 2) (by rfl)⟩

/-- C2: when the context is already cancelled as `StatusCheck` is entered, it
returns the context's error after exactly one ping and without running the
liveness query, whether that ping succeeds or fails. -/
theorem StatusCheck_cancelled (w : World) (e : GoError) (hstable : w.ctxStable)
    (h0 : w.ctxErr 0 = some e) :
    ∀ fuel, 1 ≤ fuel →
      ∃ trace, StatusCheck w fuel = some (some e, trace) ∧ pingCount trace = 1 ∧
        queryCount trace = 0 ∧ Event.scan ∉ trace := by
  intro fuel hfuel
  obtain ⟨f, rfl⟩ : ∃ f, fuel = f + 1 := ⟨fuel - 1, by omega⟩
  have h1 : w.ctxErr 1 = some e := hstable 0 e h0
  have h2 : w.ctxErr 2 = some e := hstable 1 e h1
  cases hp : w.ping 1 with
  | none =>
    refine ⟨[Event.ping, Event.ctxErr, Event.ctxErr], ?_, by decide, by decide, by decide⟩
    simp [StatusCheck, pingLoop, hp, h1, h2]
  | some pe =>
    refine ⟨[Event.ping, Event.sleep (sleepArg 1), Event.ctxErr, Event.ctxErr], ?_, ?_, ?_, ?_⟩
    · simp [StatusCheck, pingLoop, hp, h1, h2]
    · simp [pingCount]
    · simp [queryCount]
    · simp

theorem cancelledWorld_ctxStable (ok : Bool) : (cancelledWorld ok).ctxStable := by
  intro i e h
  exact h

/-- C2, at a context cancelled from the start, with a failing ping. -/
theorem StatusCheck_cancelled_witness :
    (cancelledWorld false).ctxStable ∧ (cancelledWorld false).ctxErr 0 = some Canceled ∧
      ∃ trace, StatusCheck (cancelledWorld false) 1 = some (some Canceled, trace) ∧
        pingCount trace = 1 ∧ queryCount trace = 0 ∧ Event.scan ∉ trace :=
  ⟨cancelledWorld_ctxStable false, rfl,
    StatusCheck_cancelled (cancelledWorld false) Canceled (cancelledWorld_ctxStable false) rfl
      1 (le_refl 1)⟩

theorem pingCount_retryTrace (dur : Nat → Int) (n : Nat) :
    pingCount (retryTrace dur n) = n + 1 := by
  have h : ∀ m, List.count Event.ping
      ((List.range m).flatMap (fun i => failedAttempt (dur (i + 1)))) = m := by
    intro m
    induction m with
    | zero => rfl
    | succ m ih =>
      rw [List.range_succ, List.flatMap_append, List.count_append, ih]
      simp [failedAttempt]
  rw [pingCount, retryTrace, List.count_append, h]
  simp

theorem queryCount_retryTrace (dur : Nat → Int) (n : Nat) :
    queryCount (retryTrace dur n) = 1 := by
  have h : ∀ m, ((List.range m).flatMap (fun i => failedAttempt (dur (i + 1)))).filter
      (fun e => match e with
        | Event.queryRowContext _ => true
        | _ => false) = [] := by
    intro m
    induction m with
    | zero => rfl
    | succ m ih =>
      rw [List.range_succ, List.flatMap_append, List.filter_append, ih]
      simp [failedAttempt]
  rw [queryCount, retryTrace, List.filter_append, h]
  simp

theorem sleeps_retryTrace (dur : Nat → Int) (n : Nat) :
    sleeps (retryTrace dur n) = (List.range n).map (fun i => dur (i + 1)) := by
  have h : ∀ m, ((List.range m).flatMap (fun i => failedAttempt (dur (i + 1)))).filterMap
      (fun e => match e with
        | Event.sleep d => some d
        | _ => none) = (List.range m).map (fun i => dur (i + 1)) := by
    intro m
    induction m with
    | zero => rfl
    | succ m ih =>
      rw [List.range_succ, List.flatMap_append, List.filterMap_append, ih, List.map_append]
      simp [failedAttempt]
  rw [sleeps, retryTrace, List.filterMap_append, h]
  simp

theorem sum_seconds (n : Nat) :
    ((List.range n).map (fun i => ((i + 1 : Nat) : Int) * Second)).sum
      = ((n * (n + 1) / 2 : Nat) : Int) * Second := by
  induction n with
  | zero => simp
  | succ n ih =>
    rw [List.range_succ, List.map_append, List.sum_append, ih]
    have h : (n + 1) * (n + 1 + 1) / 2 = n * (n + 1) / 2 + (n + 1) := by
      rw [show (n + 1) * (n + 1 + 1) = n * (n + 1) + 2 * (n + 1) by ring,
        Nat.add_mul_div_left _ _ (by decide : 0 < 2)]
    rw [h]
    simp only [List.map_cons, List.map_nil, List.sum_cons, List.sum_nil, add_zero]
    push_cast
    ring

/-- While the loop has not seen a successful ping or a cancelled context, the
run is not over. -/
theorem StatusCheck_running (w : World) (n : Nat)
    (hfail : ∀ k, 1 ≤ k → k ≤ n → w.ping k ≠ none)
    (hctx : ∀ i, 1 ≤ i → i ≤ n → w.ctxErr i = none) :
    ∀ fuel, fuel ≤ n → StatusCheck w fuel = none := by
  intro fuel hfuel
  have h := pingLoop_start w fuel 0 (fun k h1 h2 => hfail k h1 (by omega))
    (fun i h1 h2 => hctx i h1 (by omega))
  rw [Nat.add_zero] at h
  rw [StatusCheck, h]
  rfl

theorem failingWorld_ping_fails (n k : Nat) (hk : k ≤ n) :
    (failingWorld n).ping k ≠ none := by
  simp [failingWorld, hk]

theorem failingWorld_ping_ok (n : Nat) : (failingWorld n).ping (n + 1) = none := by
  simp [failingWorld]

/-- C3 (as stated, refuted): when the first 9223372037 pings fail, the sleep
after the last of them is called with a duration that has wrapped around in
`int64` to a negative number of nanoseconds, not with 9223372037 seconds. -/
theorem StatusCheck_sleep_overflow :
    StatusCheck (failingWorld 9223372037) 9223372038
        = some (none, retryTrace sleepOf 9223372037) ∧
      (sleeps (retryTrace sleepOf 9223372037))[9223372036]?
        = some (-9223372036709551616) ∧
      (-9223372036709551616 : Int) ≠ 9223372037 * Second := by
  refine ⟨?_, ?_, by decide⟩
  · exact StatusCheck_of_failures (failingWorld 9223372037) 9223372037
      (fun k _ hk => failingWorld_ping_fails _ k hk) (failingWorld_ping_ok _)
      (fun _ _ _ => rfl) 9223372038 (le_refl _)
  · rw [sleeps_retryTrace, List.getElem?_map, List.getElem?_range (by decide)]
    have ha : attemptsAfter 9223372036 = 9223372037 := by
      rw [attemptsAfter_eq 9223372036 (by norm_num)]
      norm_num
    show some (sleepArg (attemptsAfter 9223372036)) = _
    rw [ha]
    decide

/-- C3 (amended): for every N ≥ 1, when the first N−1 pings fail, the N-th
succeeds and the context is never cancelled, `StatusCheck` ends after exactly N
pings (never before, whatever N is), runs the liveness query exactly once and
returns its result unchanged; after the k-th failed ping it sleeps exactly k
seconds for every k up to 9223372036, the most seconds a `time.Duration` holds,
and when N−1 is within that bound the sleeps add up to N(N−1)/2 seconds. -/
theorem StatusCheck_retries (w : World) (N : Nat) (hN : 1 ≤ N)
    (hfail : ∀ k, 1 ≤ k → k < N → w.ping k ≠ none) (hok : w.ping N = none)
    (hctx : ∀ i, w.ctxErr i = none) :
    (∀ fuel, N ≤ fuel →
        StatusCheck w fuel = some (rowScan w, retryTrace sleepOf (N - 1))) ∧
      (∀ fuel, fuel < N → StatusCheck w fuel = none) ∧
      pingCount (retryTrace sleepOf (N - 1)) = N ∧
      queryCount (retryTrace sleepOf (N - 1)) = 1 ∧
      (∀ k, 1 ≤ k → k < N → k ≤ 9223372036 → sleepOf k = (k : Int) * Second) ∧
      (N - 1 ≤ 9223372036 →
        sleeps (retryTrace sleepOf (N - 1))
            = (List.range (N - 1)).map (fun i => ((i + 1 : Nat) : Int) * Second) ∧
          (sleeps (retryTrace sleepOf (N - 1))).sum
            = ((N * (N - 1) / 2 : Nat) : Int) * Second) := by
  obtain ⟨n, rfl⟩ : ∃ n, N = n + 1 := ⟨N - 1, by omega⟩
  simp only [Nat.add_sub_cancel]
  refine ⟨?_, ?_, pingCount_retryTrace _ n, queryCount_retryTrace _ n, ?_, ?_⟩
  · exact StatusCheck_of_failures w n (fun k h1 h2 => hfail k h1 (by omega)) hok
      (fun i _ _ => hctx i)
  · intro fuel hfuel
    exact StatusCheck_running w n (fun k h1 h2 => hfail k h1 (by omega))
      (fun i _ _ => hctx i) fuel (by omega)
  · intro k h1 _ hd
    exact sleepOf_eq k h1 hd
  · intro hd
    have hs : sleeps (retryTrace sleepOf n)
        = (List.range n).map (fun i => ((i + 1 : Nat) : Int) * Second) := by
      rw [sleeps_retryTrace]
      apply List.map_congr_left
      intro i hi
      have hi' : i < n := List.mem_range.1 hi
      exact sleepOf_eq (i + 1) (by omega) (by omega)
    refine ⟨hs, ?_⟩
    rw [hs, sum_seconds, Nat.mul_comm]

/-- C3 (amended), at a world whose first two pings fail: three pings, sleeps of
one and two seconds, then the liveness query. -/
theorem StatusCheck_retries_witness :
    StatusCheck (failingWorld 2) 3
        = some (none, [Event.ping, Event.sleep 1000000000, Event.ctxErr,
            Event.ping, Event.sleep 2000000000, Event.ctxErr,
            Event.ping, Event.ctxErr, Event.queryRowContext (str "SELECT true"), Event.scan]) ∧
      StatusCheck (failingWorld 2) 2 = none :=
  ⟨((StatusCheck_retries (failingWorld 2) 3 (by decide)
      (fun k _ hk => failingWorld_ping_fails 2 k (by omega)) (failingWorld_ping_ok 2)
      (fun _ => rfl)).1 3 (le_refl 3)).trans (by rfl),
    (StatusCheck_retries (failingWorld 2) 3 (by decide)
      (fun k _ hk => failingWorld_ping_fails 2 k (by omega)) (failingWorld_ping_ok 2)
      (fun _ => rfl)).2.1 2 (by decide)⟩

/-! ## Properties of the error predicates -/

mutual
theorem errorsIsLoop_iff (target : Nat) :
    ∀ e : GoError, errorsIsLoop target e = true ↔ ∃ x ∈ e.chain, matchesTarget target x
  | GoError.errorString a => by
    simp only [errorsIsLoop, GoError.chain, List.mem_singleton, beq_iff_eq, exists_eq_left,
      matchesTarget, GoError.errorString.injEq, reduceCtorEq, false_and, exists_false, or_false]
  | GoError.pgError p => by
    simp [errorsIsLoop, GoError.chain, matchesTarget]
  | GoError.wrapError err => by
    simp [errorsIsLoop, GoError.chain, matchesTarget, errorsIsLoop_iff target err]
  | GoError.joinError errs => by
    simp [errorsIsLoop, GoError.chain, matchesTarget, anyIs_iff target errs]
  | GoError.userError methods errs => by
    have ih := anyIs_iff target errs
    cases hm : methods.Is with
    | none =>
      simp [errorsIsLoop, GoError.chain, matchesTarget, hm, ih]
    | some f =>
      cases hf : f target with
      | true =>
        simp only [errorsIsLoop, hm, hf, if_true, true_iff]
        exact ⟨_, List.mem_cons_self _ _, Or.inr ⟨methods, errs, f, rfl, hm, hf⟩⟩
      | false =>
        simp [errorsIsLoop, GoError.chain, matchesTarget, hm, hf, ih]
theorem anyIs_iff (target : Nat) :
    ∀ es : List GoError,
      errorsIsLoop.anyIs target es = true ↔
        ∃ x ∈ GoError.chain.chainList es, matchesTarget target x
  | [] => by simp [errorsIsLoop.anyIs, GoError.chain.chainList]
  | e :: es => by
    have ih1 := errorsIsLoop_iff target e
    have ih2 := anyIs_iff target es
    simp only [errorsIsLoop.anyIs, GoError.chain.chainList, List.mem_append]
    constructor
    · intro h
      split at h
      · next h1 =>
        obtain ⟨x, hx, hm⟩ := ih1.1 h1
        exact ⟨x, Or.inl hx, hm⟩
      · obtain ⟨x, hx, hm⟩ := ih2.1 h
        exact ⟨x, Or.inr hx, hm⟩
    · rintro ⟨x, hx | hx, hm⟩
      · rw [ih1.2 ⟨x, hx, hm⟩]
        rfl
      · split
        · rfl
        · exact ih2.2 ⟨x, hx, hm⟩
end

theorem mem_chain_self : ∀ e : GoError, e ∈ e.chain
  | GoError.errorString _ => by simp [GoError.chain]
  | GoError.pgError _ => by simp [GoError.chain]
  | GoError.wrapError _ => by simp [GoError.chain]
  | GoError.joinError _ => by simp [GoError.chain]
  | GoError.userError _ _ => by simp [GoError.chain]

theorem mem_chain_wrapTimes (depth : Nat) (e : GoError) : e ∈ (wrapTimes depth e).chain := by
  induction depth with
  | zero => exact mem_chain_self e
  | succ d ih =>
    rw [wrapTimes, GoError.chain]
    exact List.mem_cons_of_mem _ ih

/-- C7 (as stated, refuted): an error whose type has an `Is` method that
reports true for `sql.ErrNoRows` makes `IsNoRowError` true, though the sentinel
is not in its unwrap chain. -/
theorem IsNoRowError_Is_method :
    IsNoRowError (some notFoundError) = true ∧ ErrNoRows ∉ notFoundError.chain := by
  refine ⟨by rfl, ?_⟩
  simp [notFoundError, GoError.chain, GoError.chain.chainList, ErrNoRows]

/-- C7 (amended): `IsNoRowError(err)` is true exactly when `err` is non-nil and
its unwrap chain contains the sentinel `sql.ErrNoRows` or an error whose `Is`
method reports true for the sentinel; so it is false for nil and for a chain
with neither, and true for the sentinel wrapped at any depth. -/
theorem IsNoRowError_iff (err : error) :
    (IsNoRowError err = true ↔
        ∃ e, err = some e ∧ ∃ x ∈ e.chain,
          x = ErrNoRows ∨
            ∃ methods errs isMethod, x = GoError.userError methods errs ∧
              methods.Is = some isMethod ∧ isMethod ErrNoRowsAddr = true) ∧
      IsNoRowError none = false ∧
      (∀ e, ErrNoRows ∉ e.chain →
        (∀ methods errs isMethod, GoError.userError methods errs ∈ e.chain →
          methods.Is = some isMethod → isMethod ErrNoRowsAddr = false) →
        IsNoRowError (some e) = false) ∧
      (∀ depth, IsNoRowError (some (wrapTimes depth ErrNoRows)) = true) := by
  have key : ∀ e, IsNoRowError (some e) = true ↔ ∃ x ∈ e.chain, matchesTarget ErrNoRowsAddr x :=
    fun e => errorsIsLoop_iff ErrNoRowsAddr e
  refine ⟨?_, rfl, ?_, ?_⟩
  · cases err with
    | none => simp [IsNoRowError, errorsIs]
    | some e =>
      rw [key e]
      constructor
      · rintro ⟨x, hx, hm⟩
        exact ⟨e, rfl, x, hx, hm⟩
      · rintro ⟨e', he, x, hx, hm⟩
        cases he
        exact ⟨x, hx, hm⟩
  · intro e he hIs
    rw [← Bool.not_eq_true, key e]
    rintro ⟨x, hx, hm | ⟨methods, errs, isMethod, rfl, h1, h2⟩⟩
    · rw [hm] at hx
      exact he hx
    · rw [hIs methods errs isMethod hx h1] at h2
      exact Bool.false_ne_true h2
  · intro depth
    exact (key _).2 ⟨ErrNoRows, mem_chain_wrapTimes depth ErrNoRows, Or.inl rfl⟩

theorem noAsAccepts_of_subset {l₁ l₂ : List GoError} (h : ∀ x ∈ l₁, x ∈ l₂)
    (h2 : noAsAccepts l₂) : noAsAccepts l₁ :=
  fun methods inner asMethod hmem => h2 methods inner asMethod (h _ hmem)

mutual
theorem errorsAsLoop_spec :
    ∀ e : GoError, noAsAccepts e.chain → ∀ pgErr,
      (∀ p, firstPgError e.chain = some p → errorsAsLoop e pgErr = (p, true)) ∧
        (firstPgError e.chain = none → (errorsAsLoop e pgErr).2 = false)
  | GoError.errorString a => by
    intro _ pgErr
    simp [errorsAsLoop, firstPgError, GoError.chain]
  | GoError.pgError p => by
    intro _ pgErr
    simp [errorsAsLoop, firstPgError, GoError.chain]
  | GoError.wrapError err => by
    intro h pgErr
    have ih := errorsAsLoop_spec err
      (noAsAccepts_of_subset (fun x hx => by
        rw [GoError.chain]; exact List.mem_cons_of_mem _ hx) h) pgErr
    simp only [firstPgError] at ih
    simpa [errorsAsLoop, firstPgError, GoError.chain] using ih
  | GoError.joinError errs => by
    intro h pgErr
    have ih := firstAs_spec errs
      (noAsAccepts_of_subset (fun x hx => by
        rw [GoError.chain]; exact List.mem_cons_of_mem _ hx) h) pgErr
    simp only [firstPgError] at ih
    simpa [errorsAsLoop, firstPgError, GoError.chain] using ih
  | GoError.userError methods errs => by
    intro h pgErr
    have hsub : noAsAccepts (GoError.chain.chainList errs) :=
      noAsAccepts_of_subset (fun x hx => by
        rw [GoError.chain]; exact List.mem_cons_of_mem _ hx) h
    cases hm : methods.As with
    | none =>
      have ih := firstAs_spec errs hsub pgErr
      simp only [firstPgError] at ih
      simpa [errorsAsLoop, firstPgError, GoError.chain, hm] using ih
    | some asMethod =>
      have hfalse : (asMethod pgErr).2 = false :=
        h methods errs asMethod (by rw [GoError.chain]; exact List.mem_cons_self _ _) hm pgErr
      have ih := firstAs_spec errs hsub (asMethod pgErr).1
      simp only [firstPgError] at ih
      simpa [errorsAsLoop, firstPgError, GoError.chain, hm, hfalse] using ih
theorem firstAs_spec :
    ∀ es : List GoError, noAsAccepts (GoError.chain.chainList es) → ∀ pgErr,
      (∀ p, firstPgError (GoError.chain.chainList es) = some p →
          errorsAsLoop.firstAs es pgErr = (p, true)) ∧
        (firstPgError (GoError.chain.chainList es) = none →
          (errorsAsLoop.firstAs es pgErr).2 = false)
  | [] => by
    intro _ pgErr
    simp [errorsAsLoop.firstAs, firstPgError, GoError.chain.chainList]
  | e :: es => by
    intro h pgErr
    have h1 : noAsAccepts e.chain :=
      noAsAccepts_of_subset (fun x hx => by
        rw [GoError.chain.chainList]; exact List.mem_append_left _ hx) h
    have h2 : noAsAccepts (GoError.chain.chainList es) :=
      noAsAccepts_of_subset (fun x hx => by
        rw [GoError.chain.chainList]; exact List.mem_append_right _ hx) h
    have ih1 := errorsAsLoop_spec e h1 pgErr
    have ih2 := firstAs_spec es h2 (errorsAsLoop e pgErr).1
    have happ : firstPgError (GoError.chain.chainList (e :: es))
        = (firstPgError e.chain).or (firstPgError (GoError.chain.chainList es)) := by
      simp [firstPgError, GoError.chain.chainList, List.findSome?_append]
    rw [happ, errorsAsLoop.firstAs]
    cases hf : firstPgError e.chain with
    | some p =>
      have := ih1.1 p hf
      simp [this]
    | none =>
      have := ih1.2 hf
      simp only [this, Option.none_or]
      simpa using ih2
end

/-- C6 (as stated, refuted): for the error value that is a nil pointer of type
`*pgconn.PgError`, `errors.As` succeeds and reading the code panics; and for an
error whose `As` method stores a unique-violation error in the target, the
result is true though no `*pgconn.PgError` is in its unwrap chain. -/
theorem IsUniqueViolationError_nil_pointer :
    IsUniqueViolationError (some (GoError.pgError none))
        = Except.error Panic.nilPointerDereference ∧
      IsUniqueViolationError (some convertingError) = Except.ok true ∧
      firstPgError convertingError.chain = none := by
  refine ⟨by rfl, by rfl, by rfl⟩

/-- C6 (amended): for every error value in whose unwrap chain no error has an
`As` method that reports true for the target and the first `*pgconn.PgError` is
not a nil pointer, `IsUniqueViolationError` returns without panicking, and
returns true exactly when `err` is non-nil, its chain has a `*pgconn.PgError`
and the code of the first one is `23505`; so it is false for nil, for a chain
without such an error and for any other code. -/
theorem IsUniqueViolationError_iff (err : error)
    (hAs : ∀ e, err = some e → ∀ methods inner asMethod,
      GoError.userError methods inner ∈ e.chain → methods.As = some asMethod →
      ∀ pgErr, (asMethod pgErr).2 = false)
    (hptr : ∀ e, err = some e → firstPgError e.chain ≠ some none) :
    ∃ b, IsUniqueViolationError err = Except.ok b ∧
      (b = true ↔ ∃ e pe, err = some e ∧ firstPgError e.chain = some (some pe) ∧
        pe.Code = str "23505") := by
  cases err with
  | none => exact ⟨false, rfl, by simp⟩
  | some e =>
    have hne := hptr e rfl
    have hspec := errorsAsLoop_spec e (hAs e rfl) none
    cases hf : firstPgError e.chain with
    | none =>
      have h2 : (errorsAs (some e)).2 = false := hspec.2 hf
      refine ⟨false, ?_, by simp [hf]⟩
      unfold IsUniqueViolationError
      cases hr : errorsAs (some e) with
      | mk pgErr found =>
        rw [hr] at h2
        simp only at h2
        simp [h2]
    | some p =>
      have h1 : errorsAs (some e) = (p, true) := hspec.1 p hf
      cases p with
      | none => exact absurd hf hne
      | some pe =>
        refine ⟨pe.Code == str "23505", ?_, by simp [hf]⟩
        unfold IsUniqueViolationError
        rw [h1]
        rfl

theorem wrappedUniqueViolation_noAsAccepts : noAsAccepts wrappedUniqueViolation.chain := by
  intro methods inner asMethod hmem hm pgErr
  simp only [wrappedUniqueViolation, declining, GoError.chain, GoError.chain.chainList,
    List.mem_cons, List.mem_append, List.mem_singleton, List.not_mem_nil, or_false,
    List.append_nil, reduceCtorEq, false_or, GoError.userError.injEq] at hmem
  obtain ⟨rfl, _⟩ := hmem
  simp only [Option.some.injEq] at hm
  subst hm
  rfl

/-- C6 (amended), at a wrapped unique-violation error with an error in its
chain whose `As` method reports false. -/
theorem IsUniqueViolationError_iff_witness :
    firstPgError wrappedUniqueViolation.chain ≠ some none ∧
      IsUniqueViolationError (some wrappedUniqueViolation) = Except.ok true ∧
      ∃ b, IsUniqueViolationError (some wrappedUniqueViolation) = Except.ok b ∧
        (b = true ↔ ∃ e pe, some wrappedUniqueViolation = some e ∧
          firstPgError e.chain = some (some pe) ∧ pe.Code = str "23505") :=
  ⟨by decide, by rfl,
    IsUniqueViolationError_iff (some wrappedUniqueViolation)
      (fun e he => by
        cases he
        exact wrappedUniqueViolation_noAsAccepts)
      (fun e he => by
        cases he
        decide)⟩

/-! ## Properties of Logger -/

/-- C10: the handler that `Logger` builds calls `Infow` exactly twice, once
before and once after its single call of the wrapped handler, to which it
passes its own context, writer and request. The first call logs
"request started" with the trace id of `v` and the method, URL path and remote
address of `r`; the second logs "request completed" with the same four fields,
read from the same `v` and `r` once the handler has returned (so with the same
values when the handler has not changed them), then the status code of `v` and
the time since `v.Now`. It does so whatever error the handler returns, and it
returns the handler's error (and leaves the handler's state) unchanged. -/
theorem Logger_calls (log : Nat) (handler : Handler) (ctx w : Nat) (st : WebState) :
    (Logger log handler ctx w st).1 = handler ctx w st ∧
      (logCalls (Logger log handler ctx w st).2).length = 2 ∧
      ∃ started completed,
        (Logger log handler ctx w st).2
          = [WebCall.Infow log (str "request started") started,
             WebCall.handler ctx w st.request,
             WebCall.Infow log (str "request completed") completed] ∧
        started
          = [(str "trace_id", Field.string st.values.TraceID),
             (str "web_method", Field.string st.request.Method),
             (str "web_path", Field.string st.request.Path),
             (str "web_remoteaddr", Field.string st.request.RemoteAddr)] ∧
        completed
          = [(str "trace_id", Field.string (handler ctx w st).2.values.TraceID),
             (str "web_method", Field.string (handler ctx w st).2.request.Method),
             (str "web_path", Field.string (handler ctx w st).2.request.Path),
             (str "web_remoteaddr", Field.string (handler ctx w st).2.request.RemoteAddr),
             (str "web_status_code", Field.int (handler ctx w st).2.values.StatusCode),
             (str "web_latency", Field.duration
               (max (-(2 : Int) ^ 63)
                 (min ((handler ctx w st).2.now - (handler ctx w st).2.values.Now)
                   (2 ^ 63 - 1))))] ∧
        ((handler ctx w st).2.request = st.request →
          (handler ctx w st).2.values.TraceID = st.values.TraceID →
          completed.take 4 = started) := by
  refine ⟨rfl, rfl, _, _, rfl, rfl, rfl, ?_⟩
  intro h1 h2
  simp [h1, h2]

/-- The handler built by `Logger` around a handler that fails on `GET /health`
logs both events, the second with the status code and latency the handler left,
and returns the handler's error. -/
theorem Logger_failing_handler :
    Logger 1 failingHandler 7 8 healthRequest
      = ((some (GoError.errorString 9),
          { request := { Method := str "GET", Path := str "/health",
                         RemoteAddr := str "10.0.0.1:4242" }
            values := { TraceID := str "t-1", Now := 9000000, StatusCode := 500 }
            now := 11500000 }),
         [WebCall.Infow 1 (str "request started")
            [(str "trace_id", Field.string (str "t-1")),
             (str "web_method", Field.string (str "GET")),
             (str "web_path", Field.string (str "/health")),
             (str "web_remoteaddr", Field.string (str "10.0.0.1:4242"))],
          WebCall.handler 7 8 { Method := str "GET", Path := str "/health",
                                RemoteAddr := str "10.0.0.1:4242" },
          WebCall.Infow 1 (str "request completed")
            [(str "trace_id", Field.string (str "t-1")),
             (str "web_method", Field.string (str "GET")),
             (str "web_path", Field.string (str "/health")),
             (str "web_remoteaddr", Field.string (str "10.0.0.1:4242")),
             (str "web_status_code", Field.int 500),
             (str "web_latency", Field.duration 2500000)]]) := by
  rfl
end GoStarter
